import Mathlib

/-!
Shallow embedding of the persistent-memory and hybrid-retrieval engine of the
pocket-agent repository (`MemoryManager` and its helpers in the memory module).

The SQLite tables `messages`, `facts`, `summaries` are modelled as Lean lists
held in a `MemoryState` record; `AUTOINCREMENT` primary keys are modelled by
explicit `next…Id` counters, and `datetime('now')` timestamps by a logical
`clock`.  Rows are kept in insertion order, so `ORDER BY id DESC` becomes
`List.reverse`.  The externally supplied summarizer (an async function that may
reject) is modelled as `List Message → Except String String`; awaiting it and
letting its rejection propagate is modelled by the `Except` monad.  The
external FTS5 engine and the OpenAI embedding provider are not part of the
repository's source: the rows they return (match batches with bm25 ranks,
chunk embeddings, cosine similarities) enter the model as explicit inputs, and
the arithmetic the repository performs on them is embedded exactly.  JavaScript
floating-point scores are modelled with `ℚ`.
-/

namespace PocketAgent

/-- `role TEXT CHECK(role IN ('user','assistant','system'))`. -/
inductive Role where
  | user
  | assistant
  | system
deriving DecidableEq, Repr

/-- A row of the `messages` table.  `token_count` is a nullable column
(`saveMessage` always fills it; the `timestamp` column is not used by any
modelled operation and is omitted). -/
structure Message where
  id : Nat
  role : Role
  content : String
  tokenCount : Option Nat
deriving DecidableEq, Repr

/-- A row of the `facts` table. -/
structure Fact where
  id : Nat
  category : String
  subject : String
  content : String
  createdAt : Nat
  updatedAt : Nat
deriving DecidableEq, Repr

/-- A row of the `summaries` table. -/
structure Summary where
  id : Nat
  startMessageId : Nat
  endMessageId : Nat
  content : String
  tokenCount : Nat
deriving DecidableEq, Repr

/-- The persistent state owned by `MemoryManager` (the tables touched by the
modelled operations). -/
structure MemoryState where
  messages : List Message
  facts : List Fact
  summaries : List Summary
  nextMessageId : Nat
  nextFactId : Nat
  nextSummaryId : Nat
  clock : Nat
deriving DecidableEq, Repr

/-- `estimateTokens`: `Math.ceil(text.length / CHARS_PER_TOKEN)` with
`CHARS_PER_TOKEN = 4`; for natural `n`, `⌈n/4⌉ = (n+3)/4`. -/
def estimateTokens (text : String) : Nat :=
  (text.length + 3) / 4

/-- `saveMessage(role, content)`: inserts a row with the next sequential id and
the estimated token count, returns the new id (`lastInsertRowid`). -/
def saveMessage (st : MemoryState) (role : Role) (content : String) :
    Nat × MemoryState :=
  let m : Message :=
    { id := st.nextMessageId, role := role, content := content
      tokenCount := some (estimateTokens content) }
  (st.nextMessageId,
   { st with messages := st.messages ++ [m]
             nextMessageId := st.nextMessageId + 1
             clock := st.clock + 1 })

/-- `SELECT … FROM messages ORDER BY id DESC` over the insertion-ordered
table. -/
def messagesDesc (st : MemoryState) : List Message :=
  st.messages.reverse

/-- `msg.token_count || estimateTokens(msg.content)` — JavaScript `||` treats
both `NULL` and `0` as falsy. -/
def effectiveTokens (m : Message) : Nat :=
  match m.tokenCount with
  | some t => if t = 0 then estimateTokens m.content else t
  | none => estimateTokens m.content

/-- The accumulation loop of `getConversationContext`: walk newest→oldest,
stop at the first message whose tokens would push the running total above
`avail`.  Returns the kept prefix of the newest-first list. -/
def takeFit (avail : Int) (acc : Int) : List Message → List Message
  | [] => []
  | m :: rest =>
    let t : Int := effectiveTokens m
    if acc + t > avail then [] else m :: takeFit avail (acc + t) rest

/-- The `recentMessages` array built by `getConversationContext` (chronological
order, built by `unshift`), for token limit `tokenLimit`. -/
def contextRecent (st : MemoryState) (tokenLimit : Int) : List Message :=
  (takeFit (tokenLimit - 10000) 0 (messagesDesc st)).reverse

/-- `recentMessages[0]?.id || 0`. -/
def contextOldestId (st : MemoryState) (tokenLimit : Int) : Nat :=
  ((contextRecent st tokenLimit).head?.map (·.id)).getD 0

/-- The pluggable summarizer: `(messages) => Promise<string>`; rejection is an
`Except.error`. -/
def SummarizerFn : Type :=
  List Message → Except String String

/-- `content.slice(0, 100).replace(/\n/g, ' ')`. -/
def topicOf (content : String) : String :=
  String.mk ((content.toList.take 100).map (fun c => if c = '\n' then ' ' else c))

/-- Insertion-ordered deduplication, as performed by a JavaScript `Set`
(first occurrences, in order). -/
def dedupKeepFirst {α : Type} [DecidableEq α] : List α → List α
  | [] => []
  | x :: rest => x :: (dedupKeepFirst rest).filter (fun y => ¬ y = x)

/-- `createBasicSummary`: up to 10 distinct truncated topics from the last 20
user messages of the range. -/
def createBasicSummary (messages : List Message) : String :=
  let userMessages := messages.filter (fun m => m.role == Role.user)
  let lastTwenty := userMessages.drop (userMessages.length - 20)
  let topicList := (dedupKeepFirst (lastTwenty.map (fun m => topicOf m.content))).take 10
  "Previous conversation (" ++ toString messages.length ++ " messages) covered:\n"
    ++ String.intercalate "\n" (topicList.map (fun t => "- " ++ t ++ "..."))

/-- Descending-by-`end_message_id` insertion (ties keep earlier rows first),
used to model `ORDER BY end_message_id DESC`. -/
def insertByEndDesc (s : Summary) : List Summary → List Summary
  | [] => [s]
  | t :: rest =>
    if t.endMessageId ≥ s.endMessageId then t :: insertByEndDesc s rest
    else s :: t :: rest

/-- `SELECT id FROM summaries ORDER BY end_message_id DESC` as a sort. -/
def sortByEndDesc : List Summary → List Summary
  | [] => []
  | s :: rest => insertByEndDesc s (sortByEndDesc rest)

/-- `DELETE FROM summaries WHERE id NOT IN (SELECT id FROM summaries ORDER BY
end_message_id DESC LIMIT 3)`. -/
def pruneSummaries (l : List Summary) : List Summary :=
  let keepIds := ((sortByEndDesc l).take 3).map (·.id)
  l.filter (fun s => keepIds.contains s.id)

/-- `SELECT … FROM summaries WHERE end_message_id < ? ORDER BY end_message_id
DESC LIMIT 1` — the most recent strictly-earlier summary. -/
def maxByEnd : List Summary → Option Summary
  | [] => none
  | s :: rest =>
    match maxByEnd rest with
    | none => some s
    | some m => if m.endMessageId > s.endMessageId then some m else some s

/-- The `INSERT INTO summaries …` followed by the pruning `DELETE`, plus the
`"[Memory] Created new summary …"` log modelled as a `Bool` flag. -/
def persistSummary (st : MemoryState) (content : String) (startId endId : Nat) :
    Option String × Bool × MemoryState :=
  let row : Summary :=
    { id := st.nextSummaryId, startMessageId := startId, endMessageId := endId
      content := content, tokenCount := estimateTokens content }
  (some content, true,
   { st with summaries := pruneSummaries (st.summaries ++ [row])
             nextSummaryId := st.nextSummaryId + 1 })

/-- The synthetic seed line for delta summarization:
`{ role: 'system', content: `Previous summary: …` }` (no id / token count in
the JavaScript object literal). -/
def seedMessage (partialContent : String) : Message :=
  { id := 0, role := Role.system, content := "Previous summary: " ++ partialContent
    tokenCount := none }

/-- `getOrCreateSummary(beforeMessageId)`: reuse an exact summary, extend a
partial one through the configured summarizer, or fall back to the basic
summary; persist and prune on creation.  The `Bool` in the result mirrors the
"Created new summary" log line (true exactly when a row was inserted). -/
def getOrCreateSummary (st : MemoryState) (summarizer : Option SummarizerFn)
    (beforeMessageId : Nat) : Except String (Option String × Bool × MemoryState) :=
  if beforeMessageId ≤ 1 then .ok (none, false, st)
  else
    match st.summaries.reverse.find? (fun s => s.endMessageId == beforeMessageId - 1) with
    | some s => .ok (some s.content, false, st)
    | none =>
      match st.messages.filter (fun m => m.id < beforeMessageId) with
      | [] => .ok (none, false, st)
      | m0 :: ms =>
        let messagesToSummarize := m0 :: ms
        let endId := (messagesToSummarize.getLastD m0).id
        match maxByEnd (st.summaries.filter (fun s => s.endMessageId < beforeMessageId)),
              summarizer with
        | some p, some f =>
          match messagesToSummarize.filter (fun m => p.endMessageId < m.id) with
          | [] => .ok (some p.content, false, st)
          | n0 :: ns =>
            match f (seedMessage p.content :: n0 :: ns) with
            | .error e => .error e
            | .ok summary => .ok (persistSummary st summary 1 endId)
        | none, some f =>
          match f messagesToSummarize with
          | .error e => .error e
          | .ok summary => .ok (persistSummary st summary m0.id endId)
        | _, none =>
          .ok (persistSummary st (createBasicSummary messagesToSummarize) m0.id endId)

/-- The record returned by `getConversationContext` (`summary?` is an optional
field). -/
structure ConversationContext where
  messages : List (Role × String)
  totalTokens : Nat
  summarizedCount : Nat
  summary : Option String
deriving DecidableEq, Repr

/-- `getConversationContext(tokenLimit)`: keep the newest messages that fit in
`tokenLimit - 10000`, and delegate anything older to `getOrCreateSummary`,
prepending its output as a synthetic system entry.  A summarizer rejection
propagates (`Except.error`). -/
def getConversationContext (st : MemoryState) (summarizer : Option SummarizerFn)
    (tokenLimit : Int) : Except String (ConversationContext × MemoryState) :=
  match messagesDesc st with
  | [] => .ok ({ messages := [], totalTokens := 0, summarizedCount := 0, summary := none }, st)
  | _ :: _ =>
    let allMessages := messagesDesc st
    let recentMessages := contextRecent st tokenLimit
    let tokenCount := (recentMessages.map effectiveTokens).sum
    if recentMessages.length = allMessages.length then
      .ok ({ messages := recentMessages.map (fun m => (m.role, m.content))
             totalTokens := tokenCount, summarizedCount := 0, summary := none }, st)
    else
      match getOrCreateSummary st summarizer (contextOldestId st tokenLimit) with
      | .error e => .error e
      | .ok (summary, _created, st') =>
        let prefixMessages : List (Role × String) :=
          match summary with
          | some s => [(Role.system, "[Previous conversation summary]\n" ++ s)]
          | none => []
        let tokenCount' :=
          match summary with
          | some s => tokenCount + estimateTokens s
          | none => tokenCount
        .ok ({ messages := prefixMessages ++ recentMessages.map (fun m => (m.role, m.content))
               totalTokens := tokenCount'
               summarizedCount := allMessages.length - recentMessages.length
               summary := summary }, st')

/-- The `WHERE category = ? AND subject = ?` predicate of `saveFact` /
`deleteFactBySubject`. -/
def factMatches (category subject : String) (f : Fact) : Bool :=
  f.category == category && f.subject == subject

/-- `saveFact(category, subject, content)`: upsert keyed on
`(category, subject)` — update content and `updated_at` in place when a row
exists, otherwise insert with a fresh id.  (The fire-and-forget embedding side
effect touches only the external provider and the `chunks` table.) -/
def saveFact (st : MemoryState) (category subject content : String) :
    Nat × MemoryState :=
  match st.facts.find? (factMatches category subject) with
  | some f =>
    (f.id,
     { st with facts := st.facts.map (fun g =>
         if g.id = f.id then { g with content := content, updatedAt := st.clock } else g)
               clock := st.clock + 1 })
  | none =>
    let row : Fact :=
      { id := st.nextFactId, category := category, subject := subject
        content := content, createdAt := st.clock, updatedAt := st.clock }
    (st.nextFactId,
     { st with facts := st.facts ++ [row]
               nextFactId := st.nextFactId + 1
               clock := st.clock + 1 })

/-- `clearConversation()`: `DELETE FROM messages; DELETE FROM summaries`. -/
def clearConversation (st : MemoryState) : MemoryState :=
  { st with messages := [], summaries := [] }

/-! ## Hybrid retrieval (`searchFactsHybrid`)

The FTS5 engine and the embedding provider are external: the batch of match
rows (fact plus bm25 rank) and the scanned chunk window (fact plus embedding
vector) are inputs of the model, as are the cosine-similarity values (the
`cosineSimilarity` function lives in the external `embeddings` module and
computes over IEEE floats; it enters as an abstract `ℚ`-valued function).
`try`/`catch` around each sub-search is modelled by a `…Threw` flag. -/

/-- `VECTOR_WEIGHT = 0.7`. -/
def VECTOR_WEIGHT : ℚ := 7 / 10

/-- `KEYWORD_WEIGHT = 0.3`. -/
def KEYWORD_WEIGHT : ℚ := 3 / 10

/-- `MIN_SCORE_THRESHOLD = 0.35`. -/
def MIN_SCORE_THRESHOLD : ℚ := 7 / 20

/-- `MAX_SEARCH_RESULTS = 6`. -/
def MAX_SEARCH_RESULTS : Nat := 6

/-- One entry of the ranked result set. -/
structure SearchResult where
  fact : Fact
  score : ℚ
  vectorScore : ℚ
  keywordScore : ℚ
deriving DecidableEq, Repr

/-- `Map.set` on an association list: overwrite in place if the key exists
(keeping its original insertion position), else append. -/
def mapSet {α : Type} (m : List (Nat × α)) (k : Nat) (v : α) : List (Nat × α) :=
  if m.any (fun p => p.1 == k) then
    m.map (fun p => if p.1 = k then (k, v) else p)
  else m ++ [(k, v)]

/-- `.trim()`: strip leading and trailing whitespace. -/
def trimChars (l : List Char) : List Char :=
  ((l.dropWhile Char.isWhitespace).reverse.dropWhile Char.isWhitespace).reverse

/-- `query.replace(/['"]/g, '').trim()` (characters 39 and 34 removed). -/
def escapeQuery (query : String) : String :=
  String.mk (trimChars (query.toList.filter (fun c => c.toNat ≠ 39 ∧ c.toNat ≠ 34)))

/-- One iteration of the chunk scan: skip embeddings that are empty or of
mismatched dimension, otherwise seed the per-fact accumulator with
`similarity * vectorWeight`. -/
def vectorStep (queryEmb : List ℚ) (sim : List ℚ → List ℚ → ℚ) (vectorWeight : ℚ)
    (m : List (Nat × SearchResult)) (p : Fact × List ℚ) : List (Nat × SearchResult) :=
  if p.2 = [] ∨ p.2.length ≠ queryEmb.length then m
  else
    let similarity := sim queryEmb p.2
    mapSet m p.1.id
      { fact := p.1, score := similarity * vectorWeight
        vectorScore := similarity, keywordScore := 0 }

/-- The vector sub-search: scan the newest ≤500 chunk rows. -/
def vectorPhase (vectorThrew : Bool) (queryEmb : List ℚ)
    (sim : List ℚ → List ℚ → ℚ) (vectorWeight : ℚ)
    (chunkRows : List (Fact × List ℚ)) : List (Nat × SearchResult) :=
  if vectorThrew then []
  else (chunkRows.take 500).foldl (vectorStep queryEmb sim vectorWeight) []

/-- The keyword sub-search: over the ≤20 FTS5 match rows, normalize each bm25
rank as `1 - |rank| / maxRank` with `maxRank = max(|rank|…, 1)`, and merge
`normalized * keywordWeight` into the accumulator. -/
def keywordStep (keywordWeight maxRank : ℚ) (m : List (Nat × SearchResult))
    (r : Fact × ℚ) : List (Nat × SearchResult) :=
  let normalizedScore : ℚ := 1 - |r.2| / maxRank
  match m.find? (fun p => p.1 == r.1.id) with
  | some (_, ex) =>
    mapSet m r.1.id
      { fact := ex.fact, score := ex.score + normalizedScore * keywordWeight
        vectorScore := ex.vectorScore, keywordScore := normalizedScore }
  | none =>
    mapSet m r.1.id
      { fact := r.1, score := normalizedScore * keywordWeight
        vectorScore := 0, keywordScore := normalizedScore }

/-- The keyword sub-search over the ≤20 FTS5 match rows, with
`maxRank = max(|rank|…, 1)`. -/
def keywordPhase (keywordThrew : Bool) (query : String) (keywordWeight : ℚ)
    (ftsRows : List (Fact × ℚ)) (m0 : List (Nat × SearchResult)) :
    List (Nat × SearchResult) :=
  if keywordThrew then m0
  else if escapeQuery query = "" then m0
  else
    let rows := ftsRows.take 20
    let maxRank : ℚ := rows.foldl (fun acc r => max acc |r.2|) 1
    rows.foldl (keywordStep keywordWeight maxRank) m0

/-- Stable insertion for the descending `sort((a, b) => b.score - a.score)`. -/
def insertScoreDesc (x : SearchResult) : List SearchResult → List SearchResult
  | [] => [x]
  | y :: rest =>
    if y.score ≥ x.score then y :: insertScoreDesc x rest else x :: y :: rest

/-- Stable descending sort by combined score. -/
def sortScoreDesc (l : List SearchResult) : List SearchResult :=
  l.foldl (fun acc x => insertScoreDesc x acc) []

/-- `searchFactsHybrid(query)`: weights and threshold depend on whether an
embedding backend is configured; run both sub-searches into one per-fact
accumulator, keep scores at or above the threshold, sort descending, truncate
to 6. -/
def searchFactsHybrid (query : String) (embAvailable vectorThrew keywordThrew : Bool)
    (queryEmb : List ℚ) (sim : List ℚ → List ℚ → ℚ)
    (chunkRows : List (Fact × List ℚ)) (ftsRows : List (Fact × ℚ)) :
    List SearchResult :=
  let vectorWeight : ℚ := if embAvailable then VECTOR_WEIGHT else 0
  let keywordWeight : ℚ := if embAvailable then KEYWORD_WEIGHT else 1
  let scoreThreshold : ℚ := if embAvailable then MIN_SCORE_THRESHOLD else 3 / 20
  let m1 :=
    if embAvailable then vectorPhase vectorThrew queryEmb sim vectorWeight chunkRows
    else []
  let m2 := keywordPhase keywordThrew query keywordWeight ftsRows m1
  (sortScoreDesc ((m2.map (·.2)).filter (fun r => r.score ≥ scoreThreshold))).take
    MAX_SEARCH_RESULTS

/-- The fact ids actually scanned (with a valid embedding) by the vector
sub-search — exactly the keys seeded into the accumulator. -/
def scannedIds (vectorThrew : Bool) (queryEmb : List ℚ)
    (chunkRows : List (Fact × List ℚ)) : List Nat :=
  if vectorThrew then []
  else
    ((chunkRows.take 500).filter
      (fun p => ¬ (p.2 = [] ∨ p.2.length ≠ queryEmb.length))).map (·.1.id)

/-! ## Relationship graph (`getFactsGraphData`) -/

/-- Edge types. -/
inductive LinkType where
  | category
  | semantic
  | keyword
deriving DecidableEq, Repr

/-- A derived graph node (one per fact). -/
structure GraphNode where
  id : Nat
  subject : String
  category : String
  content : String
  group : Nat
deriving DecidableEq, Repr

/-- A derived graph link. -/
structure GraphLink where
  source : Nat
  target : Nat
  type : LinkType
  strength : ℚ
deriving DecidableEq, Repr

/-- The canonical key `${min}-${max}-${type}` of a link (the three type tags
contain no digits or dashes, so the string key of the source is injective in
this triple). -/
def canonKey (source target : Nat) (t : LinkType) : Nat × Nat × LinkType :=
  (min source target, max source target, t)

/-- The `links` array together with the `linkSet` of canonical keys. -/
structure LinkState where
  links : List GraphLink
  linkSet : List (Nat × Nat × LinkType)
deriving DecidableEq, Repr

/-- `addLink`: push the link only if its canonical key is unseen and it is not
a self edge. -/
def addLink (st : LinkState) (source target : Nat) (t : LinkType)
    (strength : ℚ) : LinkState :=
  let key := canonKey source target t
  if ¬ st.linkSet.contains key ∧ source ≠ target then
    { links := st.links ++ [{ source := source, target := target, type := t, strength := strength }]
      linkSet := st.linkSet ++ [key] }
  else st

/-- Codepoint-wise lexicographic comparison, modelling SQLite's BINARY text
collation. -/
def charListLt : List Char → List Char → Bool
  | [], [] => false
  | [], _ :: _ => true
  | _ :: _, [] => false
  | a :: as, b :: bs =>
    if a.val < b.val then true
    else if b.val < a.val then false
    else charListLt as bs

/-- `<` on strings under the BINARY collation. -/
def strLt (a b : String) : Bool :=
  charListLt a.toList b.toList

/-- Total-order test for `ORDER BY category, subject` (ties keep table
order). -/
def factOrderLe (a b : Fact) : Bool :=
  strLt a.category b.category ∨ (a.category = b.category ∧ ¬ strLt b.subject a.subject)

/-- Stable insertion for `getAllFacts`. -/
def insertFactOrd (f : Fact) : List Fact → List Fact
  | [] => [f]
  | g :: rest => if factOrderLe g f then g :: insertFactOrd f rest else f :: g :: rest

/-- `getAllFacts()`: `SELECT … FROM facts ORDER BY category, subject`. -/
def getAllFacts (st : MemoryState) : List Fact :=
  st.facts.foldl (fun acc f => insertFactOrd f acc) []

/-- The fixed category→group index; unknown categories fall into group 7
("other"). -/
def categoryGroup (c : String) : Nat :=
  if c = "user_info" then 0
  else if c = "preferences" then 1
  else if c = "projects" then 2
  else if c = "people" then 3
  else if c = "work" then 4
  else if c = "notes" then 5
  else if c = "decisions" then 6
  else 7

/-- Node construction: `subject: fact.subject || fact.content.slice(0, 30)`. -/
def mkNode (f : Fact) : GraphNode :=
  { id := f.id
    subject := if f.subject = "" then String.mk (f.content.toList.take 30) else f.subject
    category := f.category, content := f.content
    group := categoryGroup f.category }

/-- Categories in order of first occurrence (JavaScript `Map` insertion
order). -/
def categoriesInOrder : List Fact → List String
  | [] => []
  | f :: rest =>
    f.category :: (categoriesInOrder rest).filter (fun c => ¬ c = f.category)

/-- `factsByCategory.values()`: per-category fact lists in first-occurrence
order, each in table order. -/
def groupByCategory (facts : List Fact) : List (List Fact) :=
  (categoriesInOrder facts).map (fun c => facts.filter (fun f => f.category == c))

instance : Inhabited Fact :=
  ⟨{ id := 0, category := "", subject := "", content := "", createdAt := 0, updatedAt := 0 }⟩

/-- Category phase: inside each category list, link fact `i` to facts
`i+1 … min(i+4, n)-1` with strength `0.3`. -/
def categoryPhase (groups : List (List Fact)) (st0 : LinkState) : LinkState :=
  groups.foldl
    (fun st cf =>
      (List.range cf.length).foldl
        (fun st i =>
          (List.range' (i + 1) (min (i + 4) cf.length - (i + 1))).foldl
            (fun st j =>
              addLink st ((cf.getD i default).id) ((cf.getD j default).id)
                LinkType.category (3 / 10))
            st)
        st)
    st0

/-- Inner pairwise loop of the semantic phase: `++comparisons`, break the
outer loop past 10000 comparisons, skip dimension mismatches, link pairs with
similarity ≥ 0.5. -/
def semanticInner (sim : List ℚ → List ℚ → ℚ) (idA : Nat) (embA : List ℚ) :
    List (Nat × List ℚ) → Nat → LinkState → Nat × LinkState × Bool
  | [], cnt, st => (cnt, st, false)
  | (idB, embB) :: rest, cnt, st =>
    if cnt + 1 > 10000 then (cnt + 1, st, true)
    else if embA.length ≠ embB.length then semanticInner sim idA embA rest (cnt + 1) st
    else
      let similarity := sim embA embB
      let st' :=
        if similarity ≥ 1 / 2 then addLink st idA idB LinkType.semantic similarity
        else st
      semanticInner sim idA embA rest (cnt + 1) st'

/-- Outer pairwise loop of the semantic phase. -/
def semanticOuter (sim : List ℚ → List ℚ → ℚ) :
    List (Nat × List ℚ) → Nat → LinkState → LinkState
  | [], _, st => st
  | (idA, embA) :: rest, cnt, st =>
    match semanticInner sim idA embA rest cnt st with
    | (cnt', st', stop) => if stop then st' else semanticOuter sim rest cnt' st'

/-- Semantic phase: build the fact→embedding map from the newest ≤200 chunk
rows (dropping invalid embeddings), then compare pairs. -/
def semanticPhase (sim : List ℚ → List ℚ → ℚ) (chunks : List (Nat × List ℚ))
    (st0 : LinkState) : LinkState :=
  let factEmbeddings :=
    (chunks.take 200).foldl
      (fun m p => if p.2 = [] then m else mapSet m p.1 p.2) []
  semanticOuter sim factEmbeddings 0 st0

/-- The fixed common-word stoplist. -/
def COMMON_WORDS : List String :=
  ["the", "and", "for", "are", "but", "not", "you", "all", "can", "her", "was", "one",
   "our", "out", "has", "have", "been", "this", "that", "they", "from", "with", "will",
   "what", "when", "where", "which", "their", "about", "would", "there", "could", "other",
   "into", "than", "then", "them", "these", "some", "like", "just", "only", "over", "such",
   "make", "made", "also", "most", "very", "does", "being", "those", "after", "before"]

/-- JavaScript `\w` word characters. -/
def isWordChar (c : Char) : Bool :=
  ('a' ≤ c ∧ c ≤ 'z') ∨ ('A' ≤ c ∧ c ≤ 'Z') ∨ c.isDigit ∨ c = '_'

/-- Maximal runs of word characters (accumulator holds the current run,
reversed). -/
def wordRunsAux : List Char → List Char → List (List Char)
  | [], acc => if acc = [] then [] else [acc.reverse]
  | c :: rest, acc =>
    if isWordChar c then wordRunsAux rest (c :: acc)
    else if acc = [] then wordRunsAux rest []
    else acc.reverse :: wordRunsAux rest []

/-- `text.toLowerCase().match(/\b[a-z]{4,}\b/g)`: the maximal word-character
runs that consist purely of `a`–`z` and have length ≥ 4. -/
def matchWords (text : String) : List String :=
  ((wordRunsAux (text.toList.map Char.toLower) []).filter
    (fun r => r.length ≥ 4 ∧ r.all (fun c => 'a' ≤ c ∧ c ≤ 'z'))).map String.mk

/-- `extractKeywords`: qualifying words minus the stoplist, deduplicated in
insertion order (`Set`). -/
def extractKeywords (text : String) : List String :=
  dedupKeepFirst ((matchWords text).filter (fun w => ¬ COMMON_WORDS.contains w))

/-- Count of shared (distinct) keywords. -/
def sharedKeywords (kwA kwB : List String) : Nat :=
  kwA.countP (fun w => kwB.contains w)

/-- Inner pairwise loop of the keyword phase: `++keywordComparisons`, break
the outer loop past 15000, skip facts with no keywords, link pairs sharing at
least 2 keywords with strength `min(1, shared / 5)`. -/
def keywordInner (idA : Nat) (kwA : List String) :
    List (Nat × List String) → Nat → LinkState → Nat × LinkState × Bool
  | [], cnt, st => (cnt, st, false)
  | (idB, kwB) :: rest, cnt, st =>
    if cnt + 1 > 15000 then (cnt + 1, st, true)
    else if kwB.isEmpty then keywordInner idA kwA rest (cnt + 1) st
    else
      let shared := sharedKeywords kwA kwB
      let st' :=
        if shared ≥ 2 then
          addLink st idA idB LinkType.keyword (min 1 ((shared : ℚ) / 5))
        else st
      keywordInner idA kwA rest (cnt + 1) st'

/-- Outer pairwise loop of the keyword phase (`continue` on facts with an
empty keyword set happens before the counter increment). -/
def keywordOuter : List (Nat × List String) → Nat → LinkState → LinkState
  | [], _, st => st
  | (idA, kwA) :: rest, cnt, st =>
    if kwA.isEmpty then keywordOuter rest cnt st
    else
      match keywordInner idA kwA rest cnt st with
      | (cnt', st', stop) => if stop then st' else keywordOuter rest cnt' st'

/-- Keyword phase over the first ≤300 facts. -/
def keywordPhaseGraph (facts : List Fact) (st0 : LinkState) : LinkState :=
  let factKeywords :=
    (facts.take 300).foldl
      (fun m f => mapSet m f.id (extractKeywords (f.subject ++ " " ++ f.content))) []
  keywordOuter factKeywords 0 st0

/-- The node/link record returned by `getFactsGraphData`. -/
structure GraphData where
  nodes : List GraphNode
  links : List GraphLink
deriving DecidableEq, Repr

/-- `getFactsGraphData()`: nodes are the facts (category ordering from
`getAllFacts`); links come from the category, semantic (only with embeddings)
and keyword phases, deduplicated through `addLink`.  The chunk window and the
similarity function of the semantic phase are external inputs. -/
def getFactsGraphData (st : MemoryState) (hasEmb : Bool)
    (chunks : List (Nat × List ℚ)) (sim : List ℚ → List ℚ → ℚ) : GraphData :=
  let facts := getAllFacts st
  if facts.isEmpty then { nodes := [], links := [] }
  else
    let nodes := facts.map mkNode
    let st1 := categoryPhase (groupByCategory facts) { links := [], linkSet := [] }
    let st2 := if hasEmb then semanticPhase sim chunks st1 else st1
    let st3 := keywordPhaseGraph facts st2
    { nodes := nodes, links := st3.links }

/-! ## Derived predicates and concrete instances used by the verification -/

/-- The canonical key of a produced link. -/
def linkKey (l : GraphLink) : Nat × Nat × LinkType :=
  canonKey l.source l.target l.type

/-- Well-formedness of the link accumulator: no self edges, canonical keys
pairwise distinct, and `linkSet` is exactly the key list of `links`. -/
def goodLinks (st : LinkState) : Prop :=
  (∀ l ∈ st.links, l.source ≠ l.target) ∧
  (st.links.map linkKey).Nodup ∧
  st.linkSet = st.links.map linkKey

/-- The condition under which `getOrCreateSummary st (some f) beforeMessageId`
invokes the configured summarizer `f`: past the trivial-cutoff guard, no
cached summary ending at `beforeMessageId - 1`, a nonempty range to
summarize, and (when a partial summary exists) a nonempty delta. -/
def summarizerInvoked (st : MemoryState) (beforeMessageId : Nat) : Bool :=
  decide (1 < beforeMessageId) &&
  (st.summaries.reverse.find? (fun s => s.endMessageId == beforeMessageId - 1)).isNone &&
  !(st.messages.filter (fun m => m.id < beforeMessageId)).isEmpty &&
  (match maxByEnd (st.summaries.filter (fun s => s.endMessageId < beforeMessageId)) with
   | some p =>
     !((st.messages.filter (fun m => m.id < beforeMessageId)).filter
        (fun m => p.endMessageId < m.id)).isEmpty
   | none => true)

/-- An empty store (fresh database). -/
def stEmpty : MemoryState :=
  { messages := [], facts := [], summaries := [], nextMessageId := 1
    nextFactId := 1, nextSummaryId := 1, clock := 0 }

/-- A 4001-character content string. -/
def longContent : String :=
  String.mk (List.replicate 4001 'a')

/-- Concrete fact `(pets, dog, "Has a golden retriever")`. -/
def factDog : Fact :=
  { id := 1, category := "pets", subject := "dog", content := "Has a golden retriever"
    createdAt := 0, updatedAt := 0 }

/-- Concrete fact `(pets, cat, "Has a tabby cat")`. -/
def factCat : Fact :=
  { id := 2, category := "pets", subject := "cat", content := "Has a tabby cat"
    createdAt := 0, updatedAt := 0 }

/-- Store holding exactly the two pet facts. -/
def stGraph : MemoryState :=
  { stEmpty with facts := [factDog, factCat], nextFactId := 3 }

/-- Concrete fact whose content contains the query `"pizza"` as a substring. -/
def factPizza : Fact :=
  { id := 1, category := "food", subject := "pizza", content := "loves pizza margherita"
    createdAt := 0, updatedAt := 0 }

/-- A second matching fact for the keyword-search witness. -/
def factPasta : Fact :=
  { id := 2, category := "food", subject := "pasta", content := "enjoys pasta carbonara"
    createdAt := 0, updatedAt := 0 }

/-- Three short messages for the summary-creation witness. -/
def stSum : MemoryState :=
  { stEmpty with
    messages :=
      [{ id := 1, role := Role.user, content := "aaaa", tokenCount := some 1 },
       { id := 2, role := Role.assistant, content := "bbbb", tokenCount := some 1 },
       { id := 3, role := Role.user, content := "cccc", tokenCount := some 1 }]
    nextMessageId := 4 }

/-- Two 10000-token messages: with limit 25000 only the newest fits. -/
def stErr : MemoryState :=
  { stEmpty with
    messages :=
      [{ id := 1, role := Role.user, content := "x", tokenCount := some 10000 },
       { id := 2, role := Role.user, content := "y", tokenCount := some 10000 }]
    nextMessageId := 3 }

/-- A summarizer that always rejects. -/
def failingSummarizer : SummarizerFn :=
  fun _ => Except.error "boom"

/-- Two small messages that fit any generous budget. -/
def stCtx : MemoryState :=
  { stEmpty with
    messages :=
      [{ id := 1, role := Role.user, content := "hello", tokenCount := some 2 },
       { id := 2, role := Role.assistant, content := "world", tokenCount := some 3 }]
    nextMessageId := 3 }

/-- A message larger than any reasonable budget. -/
def msgOne : Message :=
  { id := 1, role := Role.user, content := "hi", tokenCount := some 20000 }

/-- A store holding only `msgOne`. -/
def stOne : MemoryState :=
  { stEmpty with messages := [msgOne], nextMessageId := 2 }

/-- The basic summary produced for the first two messages of `stSum`. -/
def sumContent : String :=
  "Previous conversation (2 messages) covered:\n- aaaa..."

/-- `stSum` after `getOrCreateSummary` persisted the basic summary for
messages 1–2. -/
def stSumAfter : MemoryState :=
  { stSum with
    summaries := [{ id := 1, startMessageId := 1, endMessageId := 2
                    content := sumContent, tokenCount := 14 }]
    nextSummaryId := 2 }

/-- Four summary rows with distinct ids and distinct end ids. -/
def summariesFour : List Summary :=
  [{ id := 1, startMessageId := 1, endMessageId := 2, content := "s1", tokenCount := 1 },
   { id := 2, startMessageId := 1, endMessageId := 4, content := "s2", tokenCount := 1 },
   { id := 3, startMessageId := 1, endMessageId := 6, content := "s3", tokenCount := 1 },
   { id := 4, startMessageId := 1, endMessageId := 8, content := "s4", tokenCount := 1 }]

/-! ## Supporting lemmas -/

lemma getLast?_append_singleton {α : Type} (l : List α) (a : α) :
    (l ++ [a]).getLast? = some a := by
  induction l with
  | nil => rfl
  | cons x xs ih =>
    cases xs with
    | nil => rfl
    | cons y ys =>
      rw [List.cons_append, List.cons_append, List.getLast?_cons_cons]
      simpa using ih

lemma ceil_div_four (n : ℕ) : ⌈(n : ℚ) / 4⌉₊ = (n + 3) / 4 := by
  have h4 : (0 : ℚ) < 4 := by norm_num
  apply le_antisymm
  · apply Nat.ceil_le.mpr
    rw [div_le_iff₀ h4]
    have h : n ≤ (n + 3) / 4 * 4 := by omega
    exact_mod_cast h
  · have hc := Nat.le_ceil ((n : ℚ) / 4)
    have h1 : (n : ℚ) ≤ (⌈(n : ℚ) / 4⌉₊ : ℚ) * 4 := by
      rw [← div_le_iff₀ h4]; exact hc
    have h2 : n ≤ ⌈(n : ℚ) / 4⌉₊ * 4 := by exact_mod_cast h1
    omega

lemma takeFit_all : ∀ (l : List Message) (avail acc : Int),
    acc + (l.map (fun m => (effectiveTokens m : Int))).sum ≤ avail →
    takeFit avail acc l = l := by
  intro l
  induction l with
  | nil => intro avail acc _; rfl
  | cons m rest ih =>
    intro avail acc h
    simp only [List.map_cons, List.sum_cons] at h
    have hnn : 0 ≤ (rest.map (fun m => (effectiveTokens m : Int))).sum := by
      apply List.sum_nonneg
      intro x hx
      obtain ⟨a, _, rfl⟩ := List.mem_map.mp hx
      positivity
    have hle : ¬ (acc + (effectiveTokens m : Int) > avail) := by push_neg; linarith
    unfold takeFit
    simp only [hle, if_false]
    rw [ih avail (acc + effectiveTokens m) (by linarith)]

/-! ## Claims -/

/-- Claim C5 (confirmed): `saveMessage` stores
`token_count = ceil(length(content) / 4)` — the stored row is appended with
exactly `estimateTokens content = ⌈len/4⌉` tokens, and a 4001-character
content yields 1001. -/
theorem c5_saveMessage_tokens : ∀ (st : MemoryState) (role : Role) (content : String),
    (saveMessage st role content).2.messages.getLast? =
      some { id := st.nextMessageId, role := role, content := content
             tokenCount := some (estimateTokens content) } ∧
    estimateTokens content = ⌈(content.length : ℚ) / 4⌉₊ ∧
    (content.length = 4001 → estimateTokens content = 1001) := by
  intro st role content
  refine ⟨?_, ?_, ?_⟩
  · exact getLast?_append_singleton _ _
  · rw [ceil_div_four]; rfl
  · intro h
    unfold estimateTokens
    omega

/-- Witness for C5: a concrete 4001-character content is stored with
`token_count = 1001`. -/
theorem c5_saveMessage_tokens_witness :
    longContent.length = 4001 ∧ estimateTokens longContent = 1001 := by
  have hl : longContent.length = 4001 := by
    show (String.mk (List.replicate 4001 'a')).length = 4001
    rw [String.length, List.length_replicate]
  exact ⟨hl, (c5_saveMessage_tokens stEmpty Role.user longContent).2.2 hl⟩

lemma find?_eq_head?_filter {α : Type} (p : α → Bool) (l : List α) :
    l.find? p = (l.filter p).head? := by
  induction l with
  | nil => rfl
  | cons a l ih =>
    cases h : p a
    · simp only [List.find?_cons, h, List.filter_cons, cond_false, if_false]
      exact ih
    · simp only [List.find?_cons, h, List.filter_cons, cond_true, if_true]
      rfl

lemma filter_singleton_of_find? {α : Type} (p : α → Bool) (l : List α)
    (hlen : (l.filter p).length ≤ 1) (f : α) (hf : l.find? p = some f) :
    l.filter p = [f] := by
  rw [find?_eq_head?_filter] at hf
  cases hfl : l.filter p with
  | nil => rw [hfl] at hf; simp at hf
  | cons a t =>
    rw [hfl] at hf hlen
    simp at hf
    cases t with
    | nil => rw [hf]
    | cons b u => simp at hlen

lemma filter_map_upd {α : Type} (l : List α) (p : α → Bool) (upd : α → α)
    (h : ∀ g, p (upd g) = p g) :
    (l.map upd).filter p = (l.filter p).map upd := by
  induction l with
  | nil => rfl
  | cons a l ih =>
    by_cases ha : p a
    · simp [List.filter_cons, h, ha, ih]
    · simp [List.filter_cons, h, ha, ih]

lemma factMatches_upd (c s content : String) (uu i : Nat) (g : Fact) :
    factMatches c s (if g.id = i then { g with content := content, updatedAt := uu } else g) =
      factMatches c s g := by
  by_cases h : g.id = i <;> simp [factMatches, h]

/-- Claim C7 (confirmed): `clearConversation` empties the message and summary
tables and leaves the fact table unchanged. -/
theorem c7_clearConversation_frame : ∀ st : MemoryState,
    (clearConversation st).messages = [] ∧
    (clearConversation st).summaries = [] ∧
    (clearConversation st).facts = st.facts :=
  fun _ => ⟨rfl, rfl, rfl⟩

/-- Claim C2 (confirmed): `saveFact` is an upsert keyed on
`(category, subject)` — two successive calls with the same pair return the
same id, leave exactly one matching fact row (holding the second content),
and the second call does not insert a row.  The hypothesis is the uniqueness
invariant (at most one row per pair) that every reachable store satisfies. -/
theorem c2_saveFact_upsert : ∀ (st : MemoryState) (c s x y : String),
    (st.facts.filter (factMatches c s)).length ≤ 1 →
    (saveFact st c s x).1 = (saveFact (saveFact st c s x).2 c s y).1 ∧
    ((saveFact (saveFact st c s x).2 c s y).2.facts.filter (factMatches c s)).map
      (fun f => (f.id, f.content)) = [((saveFact st c s x).1, y)] ∧
    (saveFact (saveFact st c s x).2 c s y).2.facts.length =
      (saveFact st c s x).2.facts.length := by
  intro st c s x y hlen
  cases hfind : st.facts.find? (factMatches c s) with
  | some f =>
    have hfl : st.facts.filter (factMatches c s) = [f] :=
      filter_singleton_of_find? _ _ hlen f hfind
    have hfilterMapped :
        (st.facts.map (fun g =>
          if g.id = f.id then { g with content := x, updatedAt := st.clock } else g)).filter
            (factMatches c s) = [{ f with content := x, updatedAt := st.clock }] := by
      rw [filter_map_upd _ _ _ (factMatches_upd c s x st.clock f.id), hfl]
      simp
    have hfind2 :
        (st.facts.map (fun g =>
          if g.id = f.id then { g with content := x, updatedAt := st.clock } else g)).find?
            (factMatches c s) = some { f with content := x, updatedAt := st.clock } := by
      rw [find?_eq_head?_filter, hfilterMapped]
      rfl
    have hfilter2 :
        ((st.facts.map (fun g =>
            if g.id = f.id then { g with content := x, updatedAt := st.clock } else g)).map
          (fun g =>
            if g.id = f.id then { g with content := y, updatedAt := st.clock + 1 } else g)).filter
              (factMatches c s) = [{ f with content := y, updatedAt := st.clock + 1 }] := by
      rw [filter_map_upd _ _ _ (factMatches_upd c s y (st.clock + 1) f.id), hfilterMapped]
      simp
    rw [List.map_map] at hfilter2
    refine ⟨?_, ?_, ?_⟩
    · simp [saveFact, hfind, hfind2]
    · simp [saveFact, hfind, hfind2, hfilter2]
    · simp [saveFact, hfind, hfind2]
  | none =>
    have hnone : ∀ g ∈ st.facts, ¬ (factMatches c s g = true) := List.find?_eq_none.mp hfind
    have hfl0 : st.facts.filter (factMatches c s) = [] := by
      rw [List.filter_eq_nil_iff]
      exact hnone
    have hrow : factMatches c s
        { id := st.nextFactId, category := c, subject := s, content := x
          createdAt := st.clock, updatedAt := st.clock } = true := by
      simp [factMatches]
    have hfilter1 :
        ((st.facts ++ [({ id := st.nextFactId, category := c, subject := s, content := x
                          createdAt := st.clock, updatedAt := st.clock } : Fact)]).filter
          (factMatches c s)) =
        [({ id := st.nextFactId, category := c, subject := s, content := x
            createdAt := st.clock, updatedAt := st.clock } : Fact)] := by
      rw [List.filter_append, hfl0]
      simp [hrow]
    have hfind2 :
        ((st.facts ++ [({ id := st.nextFactId, category := c, subject := s, content := x
                          createdAt := st.clock, updatedAt := st.clock } : Fact)]).find?
          (factMatches c s)) =
        some ({ id := st.nextFactId, category := c, subject := s, content := x
                createdAt := st.clock, updatedAt := st.clock } : Fact) := by
      rw [find?_eq_head?_filter, hfilter1]
      rfl
    have hA : ((st.facts.map
          (fun g =>
            if g.id = st.nextFactId then
              { g with content := y, updatedAt := st.clock + 1 } else g)).filter
        (factMatches c s)) = [] := by
      rw [filter_map_upd _ _ _ (factMatches_upd c s y (st.clock + 1) st.nextFactId), hfl0]
      rfl
    have hB : factMatches c s
        ({ id := st.nextFactId, category := c, subject := s, content := y
           createdAt := st.clock, updatedAt := st.clock + 1 } : Fact) = true := by
      simp [factMatches]
    refine ⟨?_, ?_, ?_⟩
    · simp [saveFact, hfind, hfind2]
    · simp [saveFact, hfind, hfind2, hA, hB]
    · simp [saveFact, hfind, hfind2]

/-- Witness for C2: on an empty store, saving `(pets, dog)` twice returns id 1
both times and leaves one row with the latest content. -/
theorem c2_saveFact_upsert_witness :
    (stEmpty.facts.filter (factMatches "pets" "dog")).length ≤ 1 ∧
    ((saveFact stEmpty "pets" "dog" "x").1 =
      (saveFact (saveFact stEmpty "pets" "dog" "x").2 "pets" "dog" "y").1 ∧
     ((saveFact (saveFact stEmpty "pets" "dog" "x").2 "pets" "dog" "y").2.facts.filter
        (factMatches "pets" "dog")).map (fun f => (f.id, f.content)) =
       [((saveFact stEmpty "pets" "dog" "x").1, "y")] ∧
     (saveFact (saveFact stEmpty "pets" "dog" "x").2 "pets" "dog" "y").2.facts.length =
       (saveFact stEmpty "pets" "dog" "x").2.facts.length) :=
  ⟨by decide, c2_saveFact_upsert stEmpty "pets" "dog" "x" "y" (by decide)⟩

/-- Claim C3 (confirmed): when the sum of per-message token counts fits in
`tokenLimit - 10000`, `getConversationContext` returns every stored message
(in stored chronological order) with `summarizedCount = 0` and no summary
entry, leaving the state untouched. -/
theorem c3_context_all_fit : ∀ (st : MemoryState) (sz : Option SummarizerFn) (tokenLimit : Int),
    ((messagesDesc st).map (fun m => (effectiveTokens m : Int))).sum ≤ tokenLimit - 10000 →
    getConversationContext st sz tokenLimit =
      .ok ({ messages := st.messages.map (fun m => (m.role, m.content))
             totalTokens := (st.messages.map effectiveTokens).sum
             summarizedCount := 0, summary := none }, st) := by
  intro st sz tl h
  have hfit : takeFit (tl - 10000) 0 (messagesDesc st) = messagesDesc st :=
    takeFit_all _ _ _ (by simpa using h)
  have hrec : contextRecent st tl = st.messages := by
    unfold contextRecent
    rw [hfit]
    simp [messagesDesc]
  unfold getConversationContext
  cases hd : messagesDesc st with
  | nil =>
    have hm : st.messages = [] := by
      have := congrArg List.reverse hd
      simpa [messagesDesc] using this
    rw [hm]
    rfl
  | cons m ms =>
    have hlen2 : st.messages.length = ms.length + 1 := by
      have h1 : (messagesDesc st).length = st.messages.length := by simp [messagesDesc]
      rw [hd] at h1
      simpa using h1.symm
    simp [hd, hrec, hlen2]

/-- Witness for C3: a 2-message conversation (5 tokens total) with limit
20000 is returned whole, unsummarized. -/
theorem c3_context_all_fit_witness :
    ((messagesDesc stCtx).map (fun m => (effectiveTokens m : Int))).sum ≤ 20000 - 10000 ∧
    getConversationContext stCtx none 20000 =
      .ok ({ messages := stCtx.messages.map (fun m => (m.role, m.content))
             totalTokens := (stCtx.messages.map effectiveTokens).sum
             summarizedCount := 0, summary := none }, stCtx) :=
  ⟨by decide, c3_context_all_fit stCtx none 20000 (by decide)⟩

/-- Claim C10 (confirmed): if the newest message alone exceeds
`tokenLimit - 10000`, `getConversationContext` returns no messages, zero
tokens, `summarizedCount` equal to the whole message count and no summary —
`getOrCreateSummary` is a no-op because the cutoff id is 0. -/
theorem c10_overflow_first_message : ∀ (st : MemoryState) (sz : Option SummarizerFn)
    (tokenLimit : Int) (m : Message) (ms : List Message),
    messagesDesc st = m :: ms →
    (effectiveTokens m : Int) > tokenLimit - 10000 →
    getConversationContext st sz tokenLimit =
      .ok ({ messages := [], totalTokens := 0
             summarizedCount := st.messages.length, summary := none }, st) := by
  intro st sz tl m ms hd hbig
  have hfit : takeFit (tl - 10000) 0 (messagesDesc st) = [] := by
    rw [hd]
    unfold takeFit
    have hgt : tl - 10000 < (effectiveTokens m : Int) := by linarith
    simp [hgt]
  have hrec : contextRecent st tl = [] := by
    simp [contextRecent, hfit]
  have hold : contextOldestId st tl = 0 := by
    simp [contextOldestId, hrec]
  have hsum : getOrCreateSummary st sz (contextOldestId st tl) = .ok (none, false, st) := by
    rw [hold]
    unfold getOrCreateSummary
    simp
  have hlen3 : st.messages.length = ms.length + 1 := by
    have h1 : (messagesDesc st).length = st.messages.length := by simp [messagesDesc]
    rw [hd] at h1
    simpa using h1.symm
  unfold getConversationContext
  simp [hd, hrec, hsum, hlen3]

lemma mem_insertScoreDesc (x r : SearchResult) :
    ∀ l : List SearchResult, r ∈ insertScoreDesc x l → r = x ∨ r ∈ l := by
  intro l
  induction l with
  | nil =>
    intro h
    simpa [insertScoreDesc] using h
  | cons y t ih =>
    intro h
    unfold insertScoreDesc at h
    by_cases hc : y.score ≥ x.score
    · rw [if_pos hc] at h
      rcases List.mem_cons.mp h with h | h
      · exact Or.inr (h ▸ List.mem_cons_self _ _)
      · rcases ih h with h | h
        · exact Or.inl h
        · exact Or.inr (List.mem_cons_of_mem _ h)
    · rw [if_neg hc] at h
      rcases List.mem_cons.mp h with h | h
      · exact Or.inl h
      · exact Or.inr h

lemma mem_sortScoreDesc_aux (r : SearchResult) :
    ∀ (l acc : List SearchResult),
      r ∈ l.foldl (fun a x => insertScoreDesc x a) acc → r ∈ acc ∨ r ∈ l := by
  intro l
  induction l with
  | nil =>
    intro acc h
    exact Or.inl h
  | cons x t ih =>
    intro acc h
    rcases ih (insertScoreDesc x acc) h with h | h
    · rcases mem_insertScoreDesc x r acc h with h | h
      · exact Or.inr (h ▸ List.mem_cons_self _ _)
      · exact Or.inl h
    · exact Or.inr (List.mem_cons_of_mem _ h)

lemma mem_sortScoreDesc (r : SearchResult) (l : List SearchResult)
    (h : r ∈ sortScoreDesc l) : r ∈ l := by
  rcases mem_sortScoreDesc_aux r l [] h with h | h
  · simp at h
  · exact h

lemma searchFactsHybrid_score_ge (query : String) (emb vT kT : Bool)
    (qe : List ℚ) (sim : List ℚ → List ℚ → ℚ)
    (chunks : List (Fact × List ℚ)) (fts : List (Fact × ℚ)) (r : SearchResult)
    (h : r ∈ searchFactsHybrid query emb vT kT qe sim chunks fts) :
    r.score ≥ (if emb then MIN_SCORE_THRESHOLD else 3 / 20) := by
  unfold searchFactsHybrid at h
  have h1 := List.mem_of_mem_take h
  have h2 := mem_sortScoreDesc _ _ h1
  have h3 := List.mem_filter.mp h2
  simpa using h3.2

/-- Witness for C10: a single 20000-token message with limit 25000 yields the
empty context with `summarizedCount = 1`. -/
theorem c10_overflow_first_message_witness :
    messagesDesc stOne = msgOne :: [] ∧
    ((effectiveTokens msgOne : Int) > 25000 - 10000) ∧
    getConversationContext stOne none 25000 =
      .ok ({ messages := [], totalTokens := 0
             summarizedCount := stOne.messages.length, summary := none }, stOne) :=
  ⟨by decide, by decide,
   c10_overflow_first_message stOne none 25000 msgOne [] (by decide) (by decide)⟩

/-- Counterexample to claim C1: with no embedding backend, a single FTS5
match row whose fact content contains the query `"pizza"` exactly as a
substring, ranked `bm25 = -1`, is normalized to `1 - |−1|/max(|−1|,1) = 0`,
falls below the 0.15 floor, and `searchFactsHybrid` returns nothing — the
claim's guarantee that such a fact scores above the floor and appears in the
results is false. -/
theorem c1_counterexample :
    (∃ pre post, factPizza.content = pre ++ "pizza" ++ post) ∧
    searchFactsHybrid "pizza" false false false [] (fun _ _ => 0) []
      [(factPizza, -1)] = [] :=
  ⟨⟨"loves ", " margherita", rfl⟩, by
    have hq : escapeQuery "pizza" = "pizza" := by decide
    have hne : ¬ (("pizza" : String) = "") := by decide
    norm_num [searchFactsHybrid, keywordPhase, keywordStep, vectorPhase, hq, hne,
      mapSet, sortScoreDesc, insertScoreDesc, MAX_SEARCH_RESULTS,
      KEYWORD_WEIGHT, VECTOR_WEIGHT, MIN_SCORE_THRESHOLD, factPizza,
      List.find?_nil, List.find?_cons_of_pos, List.find?_cons_of_neg]⟩

/-- Claim C1 (corrected): with no embedding backend configured,
`searchFactsHybrid` returns only results whose combined (100% lexical) score
is at least 0.15; the claim's second half fails — a fact whose content
contains the query exactly may still be excluded, because the normalization
`1 - |rank|/maxRank` sends the batch's largest-magnitude bm25 match to score
0 (see `c1_counterexample`). -/
theorem c1_lexical_floor : ∀ (query : String) (vT kT : Bool) (qe : List ℚ)
    (sim : List ℚ → List ℚ → ℚ) (chunks : List (Fact × List ℚ))
    (fts : List (Fact × ℚ)) (r : SearchResult),
    r ∈ searchFactsHybrid query false vT kT qe sim chunks fts →
    r.score ≥ 3 / 20 := by
  intro query vT kT qe sim chunks fts r h
  simpa using searchFactsHybrid_score_ge query false vT kT qe sim chunks fts r h

/-- Witness for C1: a concrete keyword-only search that does return a result,
whose score is at or above the 0.15 floor. -/
theorem c1_lexical_floor_witness :
    ({ fact := factPizza, score := 1 / 2, vectorScore := 0, keywordScore := 1 / 2 } :
        SearchResult) ∈
      searchFactsHybrid "pizza" false false false [] (fun _ _ => 0) []
        [(factPizza, -1), (factPasta, -2)] ∧
    ({ fact := factPizza, score := 1 / 2, vectorScore := 0, keywordScore := 1 / 2 } :
        SearchResult).score ≥ 3 / 20 := by
  have hmem : ({ fact := factPizza, score := 1 / 2, vectorScore := 0, keywordScore := 1 / 2 } :
      SearchResult) ∈
      searchFactsHybrid "pizza" false false false [] (fun _ _ => 0) []
        [(factPizza, -1), (factPasta, -2)] := by
    have hq : escapeQuery "pizza" = "pizza" := by decide
    have hne : ¬ (("pizza" : String) = "") := by decide
    norm_num [searchFactsHybrid, keywordPhase, keywordStep, vectorPhase, hq, hne,
      mapSet, sortScoreDesc, insertScoreDesc, MAX_SEARCH_RESULTS,
      KEYWORD_WEIGHT, VECTOR_WEIGHT, MIN_SCORE_THRESHOLD, factPizza, factPasta,
      List.find?_nil, List.find?_cons_of_pos, List.find?_cons_of_neg]
  exact ⟨hmem,
    c1_lexical_floor "pizza" false false [] (fun _ _ => 0) []
      [(factPizza, -1), (factPasta, -2)] _ hmem⟩

lemma mapSet_forall {α : Type} (Q : Nat × α → Prop) (m : List (Nat × α)) (k : Nat) (v : α)
    (hm : ∀ p ∈ m, Q p) (hv : Q (k, v)) : ∀ p ∈ mapSet m k v, Q p := by
  intro p hp
  unfold mapSet at hp
  by_cases hc : m.any (fun q => q.1 == k)
  · rw [if_pos hc] at hp
    obtain ⟨q, hq, rfl⟩ := List.mem_map.mp hp
    by_cases hqk : q.1 = k
    · simpa [hqk] using hv
    · simpa [hqk] using hm q hq
  · rw [if_neg hc] at hp
    rcases List.mem_append.mp hp with h | h
    · exact hm p h
    · rw [List.mem_singleton] at h
      exact h ▸ hv

lemma foldl_inv {α β : Type} (P : α → Prop) (f : α → β → α) :
    ∀ (l : List β), (∀ a b, b ∈ l → P a → P (f a b)) → ∀ a, P a → P (l.foldl f a) := by
  intro l
  induction l with
  | nil =>
    intro _ a ha
    exact ha
  | cons b t ih =>
    intro hstep a ha
    exact ih (fun a' b' hb' => hstep a' b' (List.mem_cons_of_mem _ hb')) (f a b)
      (hstep a b (List.mem_cons_self _ _) ha)

lemma vectorPhase_forall (vT : Bool) (qe : List ℚ) (sim : List ℚ → List ℚ → ℚ) (w : ℚ)
    (chunks : List (Fact × List ℚ)) :
    ∀ p ∈ vectorPhase vT qe sim w chunks,
      p.2.fact.id = p.1 ∧ p.1 ∈ scannedIds vT qe chunks := by
  unfold vectorPhase scannedIds
  cases vT with
  | true => simp
  | false =>
    simp only [Bool.false_eq_true, if_false]
    refine foldl_inv
      (fun m => ∀ p ∈ m, p.2.fact.id = p.1 ∧
        p.1 ∈ ((chunks.take 500).filter
          (fun p => ¬ (p.2 = [] ∨ p.2.length ≠ qe.length))).map (·.1.id))
      (vectorStep qe sim w) (chunks.take 500) ?_ [] (by simp)
    intro m c hc hmI
    unfold vectorStep
    by_cases hv : c.2 = [] ∨ c.2.length ≠ qe.length
    · rw [if_pos hv]
      exact hmI
    · rw [if_neg hv]
      refine mapSet_forall _ m c.1.id _ hmI ⟨rfl, ?_⟩
      exact List.mem_map_of_mem _ (List.mem_filter.mpr ⟨hc, by simpa using hv⟩)

lemma le_foldl_max_init : ∀ (rows : List (Fact × ℚ)) (acc : ℚ),
    acc ≤ rows.foldl (fun a r => max a |r.2|) acc := by
  intro rows
  induction rows with
  | nil =>
    intro acc
    exact le_refl acc
  | cons r t ih =>
    intro acc
    calc acc ≤ max acc |r.2| := le_max_left _ _
    _ ≤ t.foldl (fun a r => max a |r.2|) (max acc |r.2|) := ih _

lemma keywordStep_inv (maxRank : ℚ) (hmax : 0 < maxRank) (S : List Nat) :
    ∀ (rows : List (Fact × ℚ)) (m : List (Nat × SearchResult)),
      (rows.map (fun r => r.1.id)).Nodup →
      (∀ p ∈ m, p.2.fact.id = p.1 ∧
        (p.1 ∉ S → p.2.score ≤ 3 / 10 ∧ p.1 ∉ rows.map (fun r => r.1.id))) →
      ∀ p ∈ rows.foldl (keywordStep KEYWORD_WEIGHT maxRank) m,
        p.2.fact.id = p.1 ∧ (p.1 ∉ S → p.2.score ≤ 3 / 10) := by
  intro rows
  induction rows with
  | nil =>
    intro m _ hm p hp
    exact ⟨(hm p hp).1, fun h => ((hm p hp).2 h).1⟩
  | cons r rows ih =>
    intro m hnd hm p hp
    simp only [List.foldl_cons] at hp
    simp only [List.map_cons, List.nodup_cons] at hnd
    refine ih (keywordStep KEYWORD_WEIGHT maxRank m r) hnd.2 ?_ p hp
    have hnorm : 1 - |r.2| / maxRank ≤ 1 := by
      have h0 : 0 ≤ |r.2| / maxRank := div_nonneg (abs_nonneg _) hmax.le
      linarith
    have hmul : (1 - |r.2| / maxRank) * KEYWORD_WEIGHT ≤ 3 / 10 := by
      have h := mul_le_mul_of_nonneg_right hnorm
        (show (0 : ℚ) ≤ KEYWORD_WEIGHT by norm_num [KEYWORD_WEIGHT])
      simpa [KEYWORD_WEIGHT] using h
    unfold keywordStep
    cases hfind : m.find? (fun p => p.1 == r.1.id) with
    | none =>
      simp only [hfind]
      refine mapSet_forall _ m r.1.id _ ?_ ?_
      · intro q hq
        refine ⟨(hm q hq).1, fun hs => ⟨((hm q hq).2 hs).1, fun hmem => ?_⟩⟩
        exact ((hm q hq).2 hs).2 (List.mem_cons_of_mem _ hmem)
      · refine ⟨rfl, fun _ => ⟨hmul, hnd.1⟩⟩
    | some q =>
      simp only [hfind]
      have hqmem := List.mem_of_find?_eq_some hfind
      have hqid : q.1 = r.1.id := by simpa using List.find?_some hfind
      have hq := hm q hqmem
      have hqS : q.1 ∈ S := by
        by_contra hqs
        exact (hq.2 hqs).2 (by rw [hqid]; exact List.mem_cons_self _ _)
      refine mapSet_forall _ m r.1.id _ ?_ ?_
      · intro q' hq'
        refine ⟨(hm q' hq').1, fun hs => ⟨((hm q' hq').2 hs).1, fun hmem => ?_⟩⟩
        exact ((hm q' hq').2 hs).2 (List.mem_cons_of_mem _ hmem)
      · exact ⟨by rw [hq.1, hqid], fun hs => absurd (hqid ▸ hqS) hs⟩

/-- Claim C9 (confirmed): in hybrid mode (embedding backend available), a
fact matched only by the lexical signal can reach at most
`keywordWeight = 0.3 < 0.35 = threshold`, so every returned result originates
from the scanned chunk window — `searchFactsHybrid` never returns a fact
whose vector contribution is absent.  (The hypothesis that the FTS batch
carries pairwise-distinct fact ids reflects distinct FTS5 rowids.) -/
theorem c9_hybrid_requires_vector : ∀ (query : String) (vT kT : Bool) (qe : List ℚ)
    (sim : List ℚ → List ℚ → ℚ) (chunks : List (Fact × List ℚ)) (fts : List (Fact × ℚ))
    (r : SearchResult),
    ((fts.take 20).map (fun p => p.1.id)).Nodup →
    r ∈ searchFactsHybrid query true vT kT qe sim chunks fts →
    r.fact.id ∈ scannedIds vT qe chunks := by
  intro query vT kT qe sim chunks fts r hnd hmem
  unfold searchFactsHybrid at hmem
  simp only [if_true] at hmem
  have h1 := List.mem_of_mem_take hmem
  have h2 := mem_sortScoreDesc _ _ h1
  have h3 := List.mem_filter.mp h2
  have hscore : r.score ≥ MIN_SCORE_THRESHOLD := by simpa using h3.2
  obtain ⟨p, hp, hpr⟩ := List.mem_map.mp h3.1
  have hbase := vectorPhase_forall vT qe sim VECTOR_WEIGHT chunks
  have hinv : p.2.fact.id = p.1 ∧ (p.1 ∉ scannedIds vT qe chunks → p.2.score ≤ 3 / 10) := by
    unfold keywordPhase at hp
    cases kT with
    | true =>
      simp only [if_true] at hp
      exact ⟨(hbase p hp).1, fun hS => absurd (hbase p hp).2 hS⟩
    | false =>
      simp only [Bool.false_eq_true, if_false] at hp
      by_cases hq : escapeQuery query = ""
      · rw [if_pos hq] at hp
        exact ⟨(hbase p hp).1, fun hS => absurd (hbase p hp).2 hS⟩
      · rw [if_neg hq] at hp
        have hmax : (0 : ℚ) <
            (fts.take 20).foldl (fun acc r => max acc |r.2|) 1 := by
          have := le_foldl_max_init (fts.take 20) 1
          linarith
        refine keywordStep_inv _ hmax (scannedIds vT qe chunks) (fts.take 20)
          (vectorPhase vT qe sim VECTOR_WEIGHT chunks) hnd ?_ p hp
        intro q hq'
        exact ⟨(hbase q hq').1, fun hS => absurd (hbase q hq').2 hS⟩
  rw [← hpr]
  rw [hinv.1]
  by_contra hS
  have := hinv.2 hS
  rw [hpr] at this
  have : (7 : ℚ) / 20 ≤ 3 / 10 := le_trans (by simpa [MIN_SCORE_THRESHOLD] using hscore) this
  norm_num at this

/-- Witness for C9: with an embedding backend, one valid chunk for
`factPizza` and similarity 1, the single returned result's fact id is in the
scanned chunk window. -/
theorem c9_hybrid_requires_vector_witness :
    ((([] : List (Fact × ℚ)).take 20).map (fun p => p.1.id)).Nodup ∧
    ({ fact := factPizza, score := 7 / 10, vectorScore := 1, keywordScore := 0 } :
        SearchResult) ∈
      searchFactsHybrid "q" true false false [1] (fun _ _ => 1) [(factPizza, [1])] [] ∧
    factPizza.id ∈ scannedIds false [1] [(factPizza, [1])] := by
  have hmem : ({ fact := factPizza, score := 7 / 10, vectorScore := 1, keywordScore := 0 } :
      SearchResult) ∈
      searchFactsHybrid "q" true false false [1] (fun _ _ => 1) [(factPizza, [1])] [] := by
    have hq : escapeQuery "q" = "q" := by decide
    have hne : ¬ (("q" : String) = "") := by decide
    norm_num [searchFactsHybrid, keywordPhase, keywordStep, vectorPhase, vectorStep, hq, hne,
      mapSet, sortScoreDesc, insertScoreDesc, MAX_SEARCH_RESULTS,
      KEYWORD_WEIGHT, VECTOR_WEIGHT, MIN_SCORE_THRESHOLD, factPizza]
  exact ⟨by decide, hmem,
    c9_hybrid_requires_vector "q" false false [1] (fun _ _ => 1) [(factPizza, [1])] [] _
      (by decide) hmem⟩

/-- Claim C6 (confirmed): a configured summarizer's rejection propagates —
whenever `getOrCreateSummary` reaches a summarizer call, the summarizer's
error is the call's result (no fallback to `createBasicSummary`), and any
`getOrCreateSummary` error in the summarization branch becomes the result of
the whole `getConversationContext` call. -/
theorem c6_summarizer_error_propagates :
    (∀ (st : MemoryState) (f : SummarizerFn) (e : String) (beforeMessageId : Nat),
       (∀ ms, f ms = Except.error e) →
       summarizerInvoked st beforeMessageId = true →
       getOrCreateSummary st (some f) beforeMessageId = Except.error e) ∧
    (∀ (st : MemoryState) (sz : Option SummarizerFn) (tokenLimit : Int) (e : String),
       messagesDesc st ≠ [] →
       (contextRecent st tokenLimit).length ≠ (messagesDesc st).length →
       getOrCreateSummary st sz (contextOldestId st tokenLimit) = Except.error e →
       getConversationContext st sz tokenLimit = Except.error e) := by
  constructor
  · intro st f e bid hf hinv
    unfold summarizerInvoked at hinv
    simp only [Bool.and_eq_true, decide_eq_true_eq, Option.isNone_iff_eq_none] at hinv
    obtain ⟨⟨⟨h1, h2⟩, h3⟩, h4⟩ := hinv
    unfold getOrCreateSummary
    rw [if_neg (by omega : ¬ bid ≤ 1)]
    rw [h2]
    cases hflt : st.messages.filter (fun m => m.id < bid) with
    | nil =>
      rw [hflt] at h3
      simp at h3
    | cons m0 ms =>
      rw [hflt] at h3 h4
      cases hpart : maxByEnd (st.summaries.filter (fun s => s.endMessageId < bid)) with
      | some p =>
        rw [hpart] at h4
        cases hnew : (m0 :: ms).filter (fun m => p.endMessageId < m.id) with
        | nil =>
          simp [hnew] at h4
        | cons n0 ns =>
          simp [hpart, hnew, hf]
      | none =>
        simp [hpart, hf]
  · intro st sz tl e hne hlen hsum
    unfold getConversationContext
    cases hd : messagesDesc st with
    | nil => exact absurd hd hne
    | cons m ms =>
      rw [hd] at hlen
      simp only [hd]
      rw [if_neg hlen]
      rw [hsum]

/-- Witness for C6: two 10000-token messages under limit 25000 force a cutoff
at id 2; the always-rejecting summarizer's error surfaces as the result of
`getConversationContext`. -/
theorem c6_summarizer_error_propagates_witness :
    (∀ ms, failingSummarizer ms = Except.error "boom") ∧
    summarizerInvoked stErr 2 = true ∧
    messagesDesc stErr ≠ [] ∧
    (contextRecent stErr 25000).length ≠ (messagesDesc stErr).length ∧
    getConversationContext stErr (some failingSummarizer) 25000 =
      Except.error "boom" := by
  have hA := c6_summarizer_error_propagates.1 stErr failingSummarizer "boom" 2
    (fun _ => rfl) (by decide)
  have hid : contextOldestId stErr 25000 = 2 := by decide
  refine ⟨fun _ => rfl, by decide, by decide, by decide, ?_⟩
  exact c6_summarizer_error_propagates.2 stErr (some failingSummarizer) 25000 "boom"
    (by decide) (by decide) (by rw [hid]; exact hA)

lemma goodLinks_addLink (st : LinkState) (hgood : goodLinks st) (s t : Nat)
    (ty : LinkType) (w : ℚ) : goodLinks (addLink st s t ty w) := by
  unfold addLink
  by_cases hc : ¬ st.linkSet.contains (canonKey s t ty) ∧ s ≠ t
  · rw [if_pos hc]
    obtain ⟨hself, hnodup, hset⟩ := hgood
    refine ⟨?_, ?_, ?_⟩
    · intro l hl
      rcases List.mem_append.mp hl with h | h
      · exact hself l h
      · rw [List.mem_singleton] at h
        subst h
        exact hc.2
    · rw [List.map_append]
      refine List.Nodup.append hnodup (List.nodup_singleton _) ?_
      intro a ha hb
      rcases List.mem_singleton.mp hb with rfl
      apply hc.1
      have hmem' : linkKey { source := s, target := t, type := ty, strength := w } ∈
          st.linkSet := by
        rw [hset]
        exact ha
      have hmem'' : canonKey s t ty ∈ st.linkSet := by
        simpa [linkKey, canonKey] using hmem'
      simpa [List.contains] using List.elem_eq_true_of_mem hmem''
    · rw [List.map_append, hset]
      rfl
  · rw [if_neg hc]
    exact hgood

lemma goodLinks_categoryPhase (groups : List (List Fact)) (st : LinkState)
    (h : goodLinks st) : goodLinks (categoryPhase groups st) := by
  unfold categoryPhase
  refine foldl_inv goodLinks _ groups ?_ st h
  intro a cf _ ha
  refine foldl_inv goodLinks _ (List.range cf.length) ?_ a ha
  intro b i _ hb
  refine foldl_inv goodLinks _ (List.range' (i + 1) (min (i + 4) cf.length - (i + 1))) ?_ b hb
  intro c j _ hcgood
  exact goodLinks_addLink _ hcgood _ _ _ _

lemma goodLinks_semanticInner (sim : List ℚ → List ℚ → ℚ) (idA : Nat) (embA : List ℚ) :
    ∀ (rest : List (Nat × List ℚ)) (cnt : Nat) (st : LinkState),
      goodLinks st → goodLinks (semanticInner sim idA embA rest cnt st).2.1 := by
  intro rest
  induction rest with
  | nil =>
    intro cnt st h
    exact h
  | cons b t ih =>
    intro cnt st h
    obtain ⟨idB, embB⟩ := b
    unfold semanticInner
    by_cases h1 : cnt + 1 > 10000
    · rw [if_pos h1]
      exact h
    · rw [if_neg h1]
      by_cases h2 : embA.length ≠ embB.length
      · rw [if_pos h2]
        exact ih _ _ h
      · rw [if_neg h2]
        by_cases h3 : sim embA embB ≥ 1 / 2
        · simp only [if_pos h3]
          exact ih _ _ (goodLinks_addLink _ h _ _ _ _)
        · simp only [if_neg h3]
          exact ih _ _ h

lemma goodLinks_semanticOuter (sim : List ℚ → List ℚ → ℚ) :
    ∀ (l : List (Nat × List ℚ)) (cnt : Nat) (st : LinkState),
      goodLinks st → goodLinks (semanticOuter sim l cnt st) := by
  intro l
  induction l with
  | nil =>
    intro cnt st h
    exact h
  | cons b t ih =>
    intro cnt st h
    obtain ⟨idA, embA⟩ := b
    have hin := goodLinks_semanticInner sim idA embA t cnt st h
    unfold semanticOuter
    rcases hres : semanticInner sim idA embA t cnt st with ⟨cnt', st', stop⟩
    rw [hres] at hin
    simp only at hin
    cases stop with
    | true => simpa [hres] using hin
    | false =>
      simp only [hres, Bool.false_eq_true, if_false]
      exact ih _ _ hin

lemma goodLinks_semanticPhase (sim : List ℚ → List ℚ → ℚ)
    (chunks : List (Nat × List ℚ)) (st : LinkState) (h : goodLinks st) :
    goodLinks (semanticPhase sim chunks st) := by
  unfold semanticPhase
  exact goodLinks_semanticOuter sim _ 0 st h

lemma goodLinks_keywordInner (idA : Nat) (kwA : List String) :
    ∀ (rest : List (Nat × List String)) (cnt : Nat) (st : LinkState),
      goodLinks st → goodLinks (keywordInner idA kwA rest cnt st).2.1 := by
  intro rest
  induction rest with
  | nil =>
    intro cnt st h
    exact h
  | cons b t ih =>
    intro cnt st h
    obtain ⟨idB, kwB⟩ := b
    unfold keywordInner
    by_cases h1 : cnt + 1 > 15000
    · rw [if_pos h1]
      exact h
    · rw [if_neg h1]
      by_cases h2 : kwB.isEmpty
      · simp only [h2, if_true]
        exact ih _ _ h
      · simp only [eq_false_of_ne_true h2, if_false]
        by_cases h3 : sharedKeywords kwA kwB ≥ 2
        · simp only [if_pos h3]
          exact ih _ _ (goodLinks_addLink _ h _ _ _ _)
        · simp only [if_neg h3]
          exact ih _ _ h

lemma goodLinks_keywordOuter :
    ∀ (l : List (Nat × List String)) (cnt : Nat) (st : LinkState),
      goodLinks st → goodLinks (keywordOuter l cnt st) := by
  intro l
  induction l with
  | nil =>
    intro cnt st h
    exact h
  | cons b t ih =>
    intro cnt st h
    obtain ⟨idA, kwA⟩ := b
    have hin := goodLinks_keywordInner idA kwA t cnt st h
    unfold keywordOuter
    by_cases h1 : kwA.isEmpty
    · simp only [h1, if_true]
      exact ih _ _ h
    · simp only [eq_false_of_ne_true h1, if_false]
      rcases hres : keywordInner idA kwA t cnt st with ⟨cnt', st', stop⟩
      rw [hres] at hin
      simp only at hin
      cases stop with
      | true => simpa using hin
      | false =>
        simp only [Bool.false_eq_true, if_false]
        exact ih _ _ hin

lemma goodLinks_keywordPhaseGraph (facts : List Fact) (st : LinkState)
    (h : goodLinks st) : goodLinks (keywordPhaseGraph facts st) := by
  unfold keywordPhaseGraph
  exact goodLinks_keywordOuter _ 0 st h

lemma goodLinks_init : goodLinks { links := [], linkSet := [] } :=
  ⟨by simp, by simp, by simp⟩

/-- Claim C8 (confirmed): graph construction on exactly the two pet facts
yields 2 nodes and a single `category` edge between them; and for every
input, the produced links contain no self edge and no two links share a
canonical `(min, max, type)` key. -/
theorem c8_graph_edges :
    ((getFactsGraphData stGraph false [] (fun _ _ => 0)).nodes.length = 2 ∧
     (getFactsGraphData stGraph false [] (fun _ _ => 0)).links =
       [{ source := 2, target := 1, type := LinkType.category, strength := 3 / 10 }]) ∧
    (∀ (st : MemoryState) (hasEmb : Bool) (chunks : List (Nat × List ℚ))
       (sim : List ℚ → List ℚ → ℚ),
       (∀ l ∈ (getFactsGraphData st hasEmb chunks sim).links, l.source ≠ l.target) ∧
       ((getFactsGraphData st hasEmb chunks sim).links.map linkKey).Nodup) := by
  constructor
  · exact ⟨by decide, by rfl⟩
  · intro st hasEmb chunks sim
    unfold getFactsGraphData
    by_cases hemp : (getAllFacts st).isEmpty
    · simp [hemp]
    · simp only [eq_false_of_ne_true hemp, if_false]
      have h1 := goodLinks_categoryPhase (groupByCategory (getAllFacts st)) _ goodLinks_init
      have h2 : goodLinks (if hasEmb then
          semanticPhase sim chunks
            (categoryPhase (groupByCategory (getAllFacts st)) { links := [], linkSet := [] })
        else
          categoryPhase (groupByCategory (getAllFacts st)) { links := [], linkSet := [] }) := by
        cases hasEmb with
        | true =>
          simp only [if_true]
          exact goodLinks_semanticPhase sim chunks _ h1
        | false => simpa using h1
      have h3 := goodLinks_keywordPhaseGraph (getAllFacts st) _ h2
      exact ⟨h3.1, h3.2.1⟩

/-- Witness for C8: the produced category edge of the two-pet-fact graph is
not a self edge. -/
theorem c8_graph_edges_witness :
    ({ source := 2, target := 1, type := LinkType.category, strength := 3 / 10 } : GraphLink)
      ∈ (getFactsGraphData stGraph false [] (fun _ _ => 0)).links ∧
    ({ source := 2, target := 1, type := LinkType.category, strength := 3 / 10 } :
      GraphLink).source ≠
    ({ source := 2, target := 1, type := LinkType.category, strength := 3 / 10 } :
      GraphLink).target := by
  have hl : (getFactsGraphData stGraph false [] (fun _ _ => 0)).links =
      [{ source := 2, target := 1, type := LinkType.category, strength := 3 / 10 }] := by rfl
  have hmem : ({ source := 2, target := 1, type := LinkType.category, strength := 3 / 10 } :
      GraphLink) ∈ (getFactsGraphData stGraph false [] (fun _ _ => 0)).links := by
    rw [hl]
    exact List.mem_singleton_self _
  exact ⟨hmem,
    (c8_graph_edges.2 stGraph false [] (fun _ _ => 0)).1 _ hmem⟩

lemma insertByEndDesc_perm (s : Summary) (l : List Summary) :
    List.Perm (insertByEndDesc s l) (s :: l) := by
  induction l with
  | nil => exact List.Perm.refl _
  | cons t rest ih =>
    unfold insertByEndDesc
    by_cases hc : t.endMessageId ≥ s.endMessageId
    · rw [if_pos hc]
      exact (ih.cons t).trans (List.Perm.swap s t rest)
    · rw [if_neg hc]

lemma sortByEndDesc_perm (l : List Summary) : List.Perm (sortByEndDesc l) l := by
  induction l with
  | nil => exact List.Perm.refl _
  | cons s rest ih =>
    unfold sortByEndDesc
    exact (insertByEndDesc_perm s (sortByEndDesc rest)).trans (ih.cons s)

lemma mem_insertByEndDesc (x s : Summary) (l : List Summary) :
    x ∈ insertByEndDesc s l ↔ x = s ∨ x ∈ l := by
  rw [(insertByEndDesc_perm s l).mem_iff]
  exact List.mem_cons

lemma pairwise_insertByEndDesc (s : Summary) (l : List Summary)
    (h : l.Pairwise (fun a b => b.endMessageId ≤ a.endMessageId)) :
    (insertByEndDesc s l).Pairwise (fun a b => b.endMessageId ≤ a.endMessageId) := by
  induction l with
  | nil => simp [insertByEndDesc]
  | cons t rest ih =>
    rw [List.pairwise_cons] at h
    unfold insertByEndDesc
    by_cases hc : t.endMessageId ≥ s.endMessageId
    · rw [if_pos hc]
      rw [List.pairwise_cons]
      refine ⟨?_, ih h.2⟩
      intro x hx
      rcases (mem_insertByEndDesc x s rest).mp hx with rfl | hx
      · exact hc
      · exact h.1 x hx
    · rw [if_neg hc]
      rw [List.pairwise_cons]
      refine ⟨?_, List.pairwise_cons.mpr h⟩
      intro x hx
      rcases List.mem_cons.mp hx with rfl | hx
      · omega
      · exact le_trans (h.1 x hx) (by omega)

lemma sortByEndDesc_sorted (l : List Summary) :
    (sortByEndDesc l).Pairwise (fun a b => b.endMessageId ≤ a.endMessageId) := by
  induction l with
  | nil => simp [sortByEndDesc]
  | cons s rest ih =>
    unfold sortByEndDesc
    exact pairwise_insertByEndDesc s _ ih

lemma mem_prune_iff (l : List Summary) (hid : (l.map (·.id)).Nodup) (s : Summary) :
    s ∈ pruneSummaries l ↔ s ∈ l ∧ s ∈ (sortByEndDesc l).take 3 := by
  unfold pruneSummaries
  rw [List.mem_filter]
  constructor
  · rintro ⟨hsl, hcont⟩
    refine ⟨hsl, ?_⟩
    have hex : s.id ∈ ((sortByEndDesc l).take 3).map (·.id) := by
      simpa [List.contains, List.elem_iff] using hcont
    obtain ⟨t, ht, htid⟩ := List.mem_map.mp hex
    have htl : t ∈ l :=
      (sortByEndDesc_perm l).subset (List.mem_of_mem_take ht)
    have : t = s := List.inj_on_of_nodup_map hid htl hsl htid
    exact this ▸ ht
  · rintro ⟨hsl, htake⟩
    refine ⟨hsl, ?_⟩
    have : s.id ∈ ((sortByEndDesc l).take 3).map (·.id) :=
      List.mem_map_of_mem _ htake
    simpa [List.contains, List.elem_iff] using this

lemma prune_length (l : List Summary) (hid : (l.map (·.id)).Nodup) :
    (pruneSummaries l).length = min 3 l.length := by
  have hlnd : l.Nodup := List.Nodup.of_map _ hid
  have hsnd : (sortByEndDesc l).Nodup := ((sortByEndDesc_perm l).nodup_iff).mpr hlnd
  have htnd : ((sortByEndDesc l).take 3).Nodup :=
    hsnd.sublist (List.take_sublist _ _)
  have hpnd : (pruneSummaries l).Nodup := hlnd.filter _
  have hsub1 : pruneSummaries l ⊆ (sortByEndDesc l).take 3 := by
    intro s hs
    exact ((mem_prune_iff l hid s).mp hs).2
  have hsub2 : (sortByEndDesc l).take 3 ⊆ pruneSummaries l := by
    intro s hs
    exact (mem_prune_iff l hid s).mpr
      ⟨(sortByEndDesc_perm l).subset (List.mem_of_mem_take hs), hs⟩
  have h1 := (hpnd.subperm hsub1).length_le
  have h2 := (htnd.subperm hsub2).length_le
  have hlen : ((sortByEndDesc l).take 3).length = min 3 l.length := by
    rw [List.length_take, (sortByEndDesc_perm l).length_eq]
  omega

lemma prune_strict (l : List Summary) (hid : (l.map (·.id)).Nodup)
    (hend : (l.map (·.endMessageId)).Nodup) :
    ∀ d ∈ l, d ∉ pruneSummaries l → ∀ k ∈ pruneSummaries l,
      d.endMessageId < k.endMessageId := by
  intro d hd hdn k hk
  have hkt : k ∈ (sortByEndDesc l).take 3 := ((mem_prune_iff l hid k).mp hk).2
  have hdt : d ∉ (sortByEndDesc l).take 3 := by
    intro hmem
    exact hdn ((mem_prune_iff l hid d).mpr ⟨hd, hmem⟩)
  have hds : d ∈ (sortByEndDesc l) := ((sortByEndDesc_perm l).mem_iff).mpr hd
  have hsplit : d ∈ (sortByEndDesc l).take 3 ++ (sortByEndDesc l).drop 3 := by
    rw [List.take_append_drop]
    exact hds
  have hdd : d ∈ (sortByEndDesc l).drop 3 := by
    rcases List.mem_append.mp hsplit with h | h
    · exact absurd h hdt
    · exact h
  have hendS : ((sortByEndDesc l).map (·.endMessageId)).Nodup := by
    rw [((sortByEndDesc_perm l).map (·.endMessageId)).nodup_iff]
    exact hend
  have hne : (sortByEndDesc l).Pairwise (fun a b => a.endMessageId ≠ b.endMessageId) :=
    List.pairwise_map.mp hendS
  have hlt : (sortByEndDesc l).Pairwise (fun a b => b.endMessageId < a.endMessageId) := by
    have := (sortByEndDesc_sorted l).and hne
    exact this.imp (fun h => lt_of_le_of_ne h.1 (Ne.symm h.2))
  have hpw : ((sortByEndDesc l).take 3 ++ (sortByEndDesc l).drop 3).Pairwise
      (fun a b => b.endMessageId < a.endMessageId) := by
    rw [List.take_append_drop]
    exact hlt
  exact (List.pairwise_append.mp hpw).2.2 k hkt d hdd

lemma getOrCreateSummary_created (st : MemoryState) (sz : Option SummarizerFn)
    (bid : Nat) (r : Option String) (st' : MemoryState)
    (h : getOrCreateSummary st sz bid = .ok (r, true, st')) :
    ∃ row : Summary, row.id = st.nextSummaryId ∧
      st'.summaries = pruneSummaries (st.summaries ++ [row]) := by
  unfold getOrCreateSummary at h
  by_cases h1 : bid ≤ 1
  · rw [if_pos h1] at h
    simp at h
  · rw [if_neg h1] at h
    cases hfind : st.summaries.reverse.find? (fun s => s.endMessageId == bid - 1) with
    | some s =>
      rw [hfind] at h
      simp at h
    | none =>
      rw [hfind] at h
      cases hflt : st.messages.filter (fun m => m.id < bid) with
      | nil =>
        rw [hflt] at h
        simp at h
      | cons m0 ms =>
        rw [hflt] at h
        cases hpart : maxByEnd (st.summaries.filter (fun s => s.endMessageId < bid)) with
        | some p =>
          cases sz with
          | some f =>
            simp only [hpart] at h
            cases hnew : (m0 :: ms).filter (fun m => p.endMessageId < m.id) with
            | nil =>
              simp [hnew] at h
            | cons n0 ns =>
              simp only [hnew] at h
              cases hf : f (seedMessage p.content :: n0 :: ns) with
              | error e =>
                simp [hf] at h
              | ok summary =>
                simp only [hf, persistSummary, Except.ok.injEq, Prod.mk.injEq] at h
                refine ⟨⟨st.nextSummaryId, 1, ((m0 :: ms).getLastD m0).id, summary,
                  estimateTokens summary⟩, rfl, ?_⟩
                rw [← h.2.2]
          | none =>
            simp only [hpart, persistSummary, Except.ok.injEq, Prod.mk.injEq] at h
            refine ⟨⟨st.nextSummaryId, m0.id, ((m0 :: ms).getLastD m0).id,
              createBasicSummary (m0 :: ms),
              estimateTokens (createBasicSummary (m0 :: ms))⟩, rfl, ?_⟩
            rw [← h.2.2]
        | none =>
          cases sz with
          | some f =>
            simp only [hpart] at h
            cases hf : f (m0 :: ms) with
            | error e =>
              simp [hf] at h
            | ok summary =>
              simp only [hf, persistSummary, Except.ok.injEq, Prod.mk.injEq] at h
              refine ⟨⟨st.nextSummaryId, m0.id, ((m0 :: ms).getLastD m0).id, summary,
                estimateTokens summary⟩, rfl, ?_⟩
              rw [← h.2.2]
          | none =>
            simp only [hpart, persistSummary, Except.ok.injEq, Prod.mk.injEq] at h
            refine ⟨⟨st.nextSummaryId, m0.id, ((m0 :: ms).getLastD m0).id,
              createBasicSummary (m0 :: ms),
              estimateTokens (createBasicSummary (m0 :: ms))⟩, rfl, ?_⟩
            rw [← h.2.2]

/-- Claim C4 (confirmed): after `getOrCreateSummary` persists a new summary
(the `Bool` created flag), at most 3 summary rows remain; and the pruning
step keeps exactly the rows with the 3 largest `end_message_id`s — every
other row is deleted, and every deleted row's end id is strictly below every
kept row's.  (Ids are unique by primary key; the claim's "exactly the 3
largest" presumes distinct end ids.) -/
theorem c4_summary_retention :
    (∀ (st : MemoryState) (sz : Option SummarizerFn) (bid : Nat)
       (r : Option String) (st' : MemoryState),
       getOrCreateSummary st sz bid = Except.ok (r, true, st') →
       (st.summaries.map (·.id)).Nodup →
       (∀ s ∈ st.summaries, s.id < st.nextSummaryId) →
       st'.summaries.length ≤ 3) ∧
    (∀ l : List Summary, (l.map (·.id)).Nodup → (l.map (·.endMessageId)).Nodup →
       (pruneSummaries l).length = min 3 l.length ∧
       (∀ s ∈ pruneSummaries l, s ∈ l) ∧
       (∀ d ∈ l, d ∉ pruneSummaries l → ∀ k ∈ pruneSummaries l,
         d.endMessageId < k.endMessageId)) := by
  constructor
  · intro st sz bid r st' h hid hlt
    obtain ⟨row, hrowid, hsum⟩ := getOrCreateSummary_created st sz bid r st' h
    have hid' : ((st.summaries ++ [row]).map (·.id)).Nodup := by
      rw [List.map_append]
      refine List.Nodup.append hid (List.nodup_singleton _) ?_
      intro a ha hb
      rcases List.mem_singleton.mp hb with rfl
      obtain ⟨s, hs, hsid⟩ := List.mem_map.mp ha
      have := hlt s hs
      simp only [hrowid] at hsid
      omega
    rw [hsum]
    rw [prune_length _ hid']
    omega
  · intro l hid hend
    exact ⟨prune_length l hid,
      fun s hs => ((mem_prune_iff l hid s).mp hs).1,
      prune_strict l hid hend⟩

/-- Witness for C4: creating the basic summary over `stSum` leaves one (≤ 3)
summary row, and pruning four distinct-ended rows keeps exactly the top 3. -/
theorem c4_summary_retention_witness :
    getOrCreateSummary stSum none 3 = Except.ok (some sumContent, true, stSumAfter) ∧
    (stSum.summaries.map (·.id)).Nodup ∧
    (∀ s ∈ stSum.summaries, s.id < stSum.nextSummaryId) ∧
    stSumAfter.summaries.length ≤ 3 ∧
    ((summariesFour.map (·.id)).Nodup ∧ (summariesFour.map (·.endMessageId)).Nodup) ∧
    ((pruneSummaries summariesFour).length = min 3 summariesFour.length ∧
     (∀ s ∈ pruneSummaries summariesFour, s ∈ summariesFour) ∧
     (∀ d ∈ summariesFour, d ∉ pruneSummaries summariesFour →
       ∀ k ∈ pruneSummaries summariesFour, d.endMessageId < k.endMessageId)) := by
  have heq : getOrCreateSummary stSum none 3 =
      Except.ok (some sumContent, true, stSumAfter) := by rfl
  refine ⟨heq, by decide, by decide, ?_, ⟨by decide, by decide⟩, ?_⟩
  · exact c4_summary_retention.1 stSum none 3 (some sumContent) stSumAfter heq
      (by decide) (by decide)
  · exact c4_summary_retention.2 summariesFour (by decide) (by decide)

end PocketAgent
